import Mathlib

/-!
Verification of the ai_agent package: a shallow embedding of the agent call
loop (agents/agent.py), the task lifecycle state machine (utility/task.py,
utility/task_manager.py), the deferred message buffer, the handoff registry
(tools/handoff_to_coder.py) and the coder/reviewer coupling
(tools/write_python.py, agents/code_reviewer.py, tools/write_code_review.py),
together with theorems settling the stated behavioural properties.

External collaborators (the OpenAI client, the MDReporter logging sink,
pylint, the file system) are treated as opaque: responses of the completion
service are supplied by an environment function `Nat → Response` indexed by
the number of turns the agent has created so far, and reporter calls are
dropped (the reporter is a write-only sink the core never reads back).
-/

namespace AoD

/-- A conversation message. `user` covers plain role/content dictionaries
(including messages staged by tools such as view_images); `function_call_output`
is the tool-result dictionary built in Agent.execute_tool_calls with keys
type/call_id/output. -/
inductive Msg where
  | user (content : String)
  | function_call_output (call_id : String) (output : String)
  deriving Repr, DecidableEq

/-- Modelled from the spec: the class `preparedMsgBuff` is imported from
`utility.prepared_msg_buff`, a module of this repository whose source file is
not under src/. Spec §3 describes it as an "ordered queue of fully-formed
messages" with stage and drain-all operations; the callers in src/ use
`add_msg` to stage (tools/view_images.py line 171), and `get_msg` followed by
`clear_msg` to drain (agents/agent.py lines 237-239). -/
structure preparedMsgBuff where
  msgs : List Msg
  deriving Repr, DecidableEq

def preparedMsgBuff.empty : preparedMsgBuff := ⟨[]⟩

/-- Modelled from the spec: staging appends one message at the end of the queue. -/
def preparedMsgBuff.add_msg (b : preparedMsgBuff) (m : Msg) : preparedMsgBuff :=
  ⟨b.msgs ++ [m]⟩

/-- Modelled from the spec: returns the staged messages in staging order. -/
def preparedMsgBuff.get_msg (b : preparedMsgBuff) : List Msg :=
  b.msgs

/-- Modelled from the spec: empties the queue. -/
def preparedMsgBuff.clear_msg (_ : preparedMsgBuff) : preparedMsgBuff :=
  ⟨[]⟩

/-- The drain performed once per executed tool call by Agent.execute_tool_calls:
read all staged messages with get_msg, then clear_msg. -/
def drain_all (b : preparedMsgBuff) : List Msg × preparedMsgBuff :=
  (b.get_msg, b.clear_msg)

/-- A registered tool (tools/tool.py): a name and a handler producing a string
result. The handler may stage messages, so it acts on the consuming agent's
prepared message buffer; the parsed JSON argument record is abstracted as a
string. -/
structure Tool where
  name : String
  run : String → preparedMsgBuff → String × preparedMsgBuff

/-- One output item of a completion-service response: a function_call item
carrying name, arguments and call_id, or any other item kind (assistant text,
reasoning), which Agent.execute_tool_calls skips. -/
inductive Item where
  | function_call (name : String) (arguments : String) (call_id : String)
  | other
  deriving Repr, DecidableEq

/-- A completion-service response (turn): id, ordered output items, and the
aggregated assistant text. -/
structure Response where
  id : Nat
  output : List Item
  output_text : String
  deriving Repr, DecidableEq

/-- The exceptions raised by agents/agent.py: MaxCallsExceededError, and the
ValueError raised by Agent.call on an empty message list. -/
inductive AgentError where
  | maxCallsExceeded
  | valueError
  deriving Repr, DecidableEq

/-- The mutable state of Agent (agents/agent.py __init__): registered tools,
budget, call counter, stop flag, the ids of previous responses, and the
prepared message buffer. -/
structure Agent where
  tools : List Tool
  max_calls : Nat
  call_count : Nat
  stop : Bool
  response_ids : List Nat
  prepared_message_buffer : preparedMsgBuff

/-- A freshly constructed Agent: counter 0, stop false, no response ids.
The default buffer argument starts out empty; instance sharing of the
default buffer object is modelled separately (see the buffer-address model
below). -/
def mk_agent (tools : List Tool) (max_calls : Nat) : Agent :=
  ⟨tools, max_calls, 0, false, [], preparedMsgBuff.empty⟩

/-- Agent.iterate (agent.py lines 73-82): if the counter has reached the
budget, set stop; in any case increment the counter. -/
def Agent.iterate (a : Agent) : Agent :=
  let a1 := if a.max_calls ≤ a.call_count then { a with stop := true } else a
  { a1 with call_count := a1.call_count + 1 }

/-- Agent._create_response (agent.py lines 84-140): raise MaxCallsExceededError
if stopped, otherwise run iterate, create the turn and append its id.  The
network call itself is replaced by the supplied response `r`; both branches of
the last_response_id logic create the turn and append its id, so they collapse
in the model. -/
def Agent.create_response (a : Agent) (r : Response) :
    Except AgentError (Agent × Response) :=
  if a.stop then .error .maxCallsExceeded
  else
    let a1 := a.iterate
    .ok ({ a1 with response_ids := a1.response_ids ++ [r.id] }, r)

/-- Agent.call_function (agent.py lines 187-208): result starts as the
sentinel "function not found"; the first registered tool whose name matches is
run and the loop breaks. -/
def call_function (tools : List Tool) (nm : String) (args : String)
    (b : preparedMsgBuff) : String × preparedMsgBuff :=
  match tools with
  | [] => ("function not found", b)
  | t :: ts => if t.name = nm then t.run args b else call_function ts nm args b

/-- The loop body of Agent.execute_tool_calls (agent.py lines 210-240): skip
non function_call items; for each function_call, dispatch it, append the
function_call_output message keyed by its call_id, then append every message
staged in the buffer and clear the buffer. -/
def execute_items (tools : List Tool) :
    List Item → preparedMsgBuff → List Msg × preparedMsgBuff
  | [], b => ([], b)
  | .other :: rest, b => execute_items tools rest b
  | .function_call nm args cid :: rest, b =>
      let rb := call_function tools nm args b
      let tb := execute_items tools rest rb.2.clear_msg
      ((Msg.function_call_output cid rb.1 :: rb.2.get_msg) ++ tb.1, tb.2)

/-- Agent.execute_tool_calls: dispatches the response's tool calls against the
agent's tools and buffer. -/
def Agent.execute_tool_calls (a : Agent) (r : Response) : Agent × List Msg :=
  let mb := execute_items a.tools r.output a.prepared_message_buffer
  ({ a with prepared_message_buffer := mb.2 }, mb.1)

/-- The while loop of Agent.call (agent.py lines 171-180): while the message
list is non-empty and the agent is not stopped, create a response and feed the
tool-call results back in.  `resp` is the local variable `response`
(initially None); `fuel` bounds the unrolling of the while loop, which the
budget makes sufficient in every reachable use. Responses are drawn from `env`
at the index given by the number of turns created so far. -/
def call_loop (env : Nat → Response) :
    Nat → Agent → List Msg → Option Response →
    Except AgentError (Agent × Option Response)
  | 0, a, _, resp => .ok (a, resp)
  | fuel + 1, a, messages, resp =>
      if messages = [] ∨ a.stop then .ok (a, resp)
      else
        match a.create_response (env a.response_ids.length) with
        | .error e => .error e
        | .ok (a1, r) =>
            let am := a1.execute_tool_calls r
            call_loop env fuel am.1 am.2 (some r)

/-- Agent.call (agent.py lines 142-185): raise ValueError on an empty message
list; run the loop; return "No response" if no turn was ever created,
otherwise the last turn's output text. -/
def Agent.call (env : Nat → Response) (fuel : Nat) (a : Agent)
    (messages : List Msg) : Except AgentError (Agent × String) :=
  if messages = [] then .error .valueError
  else
    match call_loop env fuel a messages none with
    | .error e => .error e
    | .ok (a1, none) => .ok (a1, "No response")
    | .ok (a1, some r) => .ok (a1, r.output_text)

/-- Agent.reset_call_count (agent.py lines 242-248). -/
def Agent.reset_call_count (a : Agent) : Agent :=
  { a with call_count := 0, stop := false }

/-- `n` successive turn-creation attempts (`_create_response` invocations),
threading the agent state; a raised MaxCallsExceededError aborts the
remaining attempts. -/
def iter_attempts (env : Nat → Response) : Nat → Agent → Except AgentError Agent
  | 0, a => .ok a
  | n + 1, a =>
      match a.create_response (env a.response_ids.length) with
      | .error e => .error e
      | .ok (a1, _) => iter_attempts env n a1

/-! ### Task and TaskManager (utility/task.py, utility/task_manager.py) -/

/-- A task record (utility/task.py __init__). Statuses are the integers used
by the source: -1 inactive, 0 active, 1 completed. -/
structure Task where
  task_id : Int
  task_name : String
  task_description : String
  work_dir : String
  task_status : Int
  comment : List String
  report : Option String
  deriving Repr, DecidableEq

/-- Task.__init__: status -1, no comments, no report. -/
def mk_task (tid : Int) (nm ds wd : String) : Task :=
  ⟨tid, nm, ds, wd, -1, [], none⟩

/-- Task.activate_task: status becomes 0. -/
def Task.activate_task (t : Task) : Task :=
  { t with task_status := 0 }

/-- Task.deactivate_task: status becomes -1, the comment is appended. -/
def Task.deactivate_task (t : Task) (c : String) : Task :=
  { t with task_status := -1, comment := t.comment ++ [c] }

/-- Task.complete_task: status becomes 1, the report is stored. -/
def Task.complete_task (t : Task) (r : String) : Task :=
  { t with task_status := 1, report := some r }

/-- The `for task in self.tasks: if task.task_id == task_id:` loop shared by
TaskManager.deactivate_task and TaskManager.complete_task: apply `f` to the
first task with the given id and return the updated list, or none when no
task matches. -/
def update_first_by_id (f : Task → Task) : List Task → Int → Option (List Task)
  | [], _ => none
  | t :: ts, tid =>
      if t.task_id = tid then some (f t :: ts)
      else
        match update_first_by_id f ts tid with
        | some ts1 => some (t :: ts1)
        | none => none

/-- TaskManager state: the ordered task list and the active-task id, with -1
as the "no active task" sentinel. -/
structure TaskManager where
  tasks : List Task
  active_task : Int
  deriving Repr, DecidableEq

def empty_manager : TaskManager := ⟨[], -1⟩

/-- TaskManager.add_task: append. -/
def TaskManager.add_task (m : TaskManager) (t : Task) : TaskManager :=
  { m with tasks := m.tasks ++ [t] }

/-- TaskManager.deactivate_task: deactivate the first task with the given id
and clear the pointer to the sentinel; if no task matches, return "Task not
found." leaving the state unchanged. -/
def TaskManager.deactivate_task (m : TaskManager) (tid : Int) (c : String) :
    TaskManager × String :=
  match update_first_by_id (Task.deactivate_task · c) m.tasks tid with
  | some ts => (⟨ts, -1⟩, "Task " ++ toString tid ++ " deactivated.")
  | none => (m, "Task not found.")

/-- TaskManager.complete_task: complete the first task with the given id and
clear the pointer to the sentinel; unknown id leaves the state unchanged. -/
def TaskManager.complete_task (m : TaskManager) (tid : Int) (r : String) :
    TaskManager × String :=
  match update_first_by_id (Task.complete_task · r) m.tasks tid with
  | some ts => (⟨ts, -1⟩, "Task " ++ toString tid ++ " completed.")
  | none => (m, "Task not found.")

/-- Replace the element at position `i` by its image under `f` (identity when
`i` is out of range). -/
def modify_at (f : α → α) : Nat → List α → List α
  | _, [] => []
  | 0, x :: xs => f x :: xs
  | n + 1, x :: xs => x :: modify_at f n xs

/-- Position of the first task with the given id, mirroring where the
`for task in self.tasks` loop of TaskManager.activate_task finds its match. -/
def find_idx_by_id (tid : Int) : List Task → Option Nat
  | [] => none
  | t :: ts =>
      if t.task_id = tid then some 0
      else (find_idx_by_id tid ts).map (· + 1)

/-- TaskManager.activate_task: on the first task whose id matches, first
deactivate the currently active task (if any) with the automatic comment,
then activate the found task object and point at its id.  The source finds
the task object before the deactivation runs and then mutates that same
object; since deactivation preserves list order, that object sits at the
position `i` computed on the original list, which `modify_at` activates. -/
def TaskManager.activate_task (m : TaskManager) (tid : Int) :
    TaskManager × String :=
  match find_idx_by_id tid m.tasks with
  | none => (m, "Task not found.")
  | some i =>
      let m1 := if m.active_task ≠ -1 then
          (m.deactivate_task m.active_task "Deactivated due to new activation.").1
        else m
      (⟨modify_at Task.activate_task i m1.tasks, tid⟩,
        "Task " ++ toString tid ++ " activated.")

/-- One TaskManager operation: adding a freshly constructed task, or one of
the three transition calls. -/
inductive TMOp where
  | add (tid : Int) (nm ds : String)
  | activate (tid : Int)
  | deactivate (tid : Int) (c : String)
  | complete (tid : Int) (r : String)
  deriving Repr, DecidableEq

def run_op (m : TaskManager) : TMOp → TaskManager
  | .add tid nm ds => m.add_task (mk_task tid nm ds "")
  | .activate tid => (m.activate_task tid).1
  | .deactivate tid c => (m.deactivate_task tid c).1
  | .complete tid r => (m.complete_task tid r).1

def run_ops (m : TaskManager) : List TMOp → TaskManager
  | [] => m
  | op :: ops => run_ops (run_op m op) ops

/-- Number of tasks whose status is active. -/
def count_active (m : TaskManager) : Nat :=
  m.tasks.countP (fun t => t.task_status == 0)

/-- The claim's first invariant: at most one task has status active. -/
def at_most_one_active (m : TaskManager) : Prop :=
  count_active m ≤ 1

/-- The claim's second invariant: the pointer is the sentinel or the id of an
active task. -/
def pointer_consistent (m : TaskManager) : Prop :=
  m.active_task = -1 ∨
    ∃ t ∈ m.tasks, t.task_status = 0 ∧ t.task_id = m.active_task

/-- Discipline under which the invariant does hold (it is the one the task
tools follow): added tasks never use the sentinel as id, and deactivate and
complete are only ever aimed at the currently active task when one is
active. -/
def guarded_op (m : TaskManager) : TMOp → Bool
  | .add tid _ _ => tid != -1
  | .activate _ => true
  | .deactivate tid _ => m.active_task == -1 || tid == m.active_task
  | .complete tid _ => m.active_task == -1 || tid == m.active_task

def guarded_run (m : TaskManager) : List TMOp → Bool
  | [] => true
  | op :: ops => guarded_op m op && guarded_run (run_op m op) ops

/-- The inductive invariant behind the guarded activation property: ids never
collide with the sentinel, and either no task is active and the pointer is
the sentinel, or the pointer names the first task with its id, that task is
the only active one. -/
def StrongInv (m : TaskManager) : Prop :=
  (∀ t ∈ m.tasks, t.task_id ≠ -1) ∧
  ((m.active_task = -1 ∧ ∀ t ∈ m.tasks, t.task_status ≠ 0) ∨
    (m.active_task ≠ -1 ∧ ∃ p x q, m.tasks = p ++ x :: q ∧
      x.task_id = m.active_task ∧ x.task_status = 0 ∧
      (∀ u ∈ p, u.task_id ≠ m.active_task ∧ u.task_status ≠ 0) ∧
      (∀ u ∈ q, u.task_status ≠ 0)))

/-- The operation sequence that drives two tasks into the active status at
once: deactivating a non-active task clears the pointer while task 1 stays
active, so the following activation skips the automatic deactivation. -/
def two_active_ops : List TMOp :=
  [.add 1 "a" "first", .add 2 "b" "second", .activate 1,
   .deactivate 2 "clearing pointer", .activate 2]

/-- A guarded operation sequence used as the C2 witness input. -/
def w2_ops : List TMOp :=
  [.add 1 "a" "first", .add 2 "b" "second", .activate 1,
   .complete 1 "done", .activate 2, .deactivate 2 "pause"]

/-- A manager holding one completed task, the C10 witness input. -/
def w10_manager : TaskManager :=
  ⟨[⟨5, "n", "d", "w", 1, [], some "r"⟩], -1⟩

/-! ### CodeReviewer and the coder/reviewer coupling
(agents/code_reviewer.py, tools/write_code_review.py, tools/write_python.py) -/

/-- The CodeReviewer agent state: the inherited Agent fields (its tool list
is fixed to the single write_code_review tool, so it is left implicit), plus
the task, verdict and feedback fields added by code_reviewer.py. -/
structure CodeReviewer where
  max_calls : Nat
  call_count : Nat
  stop : Bool
  response_ids : List Nat
  prepared_message_buffer : preparedMsgBuff
  task : String
  pass_ : Bool
  feedback : String
  deriving Repr

/-- CodeReviewer.__init__: fresh agent state (default budget 10), verdict
false, empty feedback. -/
def mk_code_reviewer (task : String) : CodeReviewer :=
  ⟨10, 0, false, [], preparedMsgBuff.empty, task, false, ""⟩

/-- WriteCodeReview.write_code_review (tools/write_code_review.py): stop the
reviewer, record the verdict and feedback, return the confirmation text. -/
def write_code_review (rv : CodeReviewer) (p : Bool) (fb : String) :
    CodeReviewer × String :=
  let rv1 := { rv with stop := true, pass_ := p, feedback := fb }
  if p then (rv1, "Code passed the review. Feedback: " ++ fb)
  else (rv1, "Code did not pass the review. Feedback: " ++ fb)

/-- A reviewer-turn output item: a function call (carrying the parsed pass_
and feedback arguments when addressed to write_code_review), or any other
item. -/
inductive RItem where
  | fn_call (name : String) (pass_arg : Bool) (feedback_arg : String) (call_id : String)
  | plain
  deriving Repr, DecidableEq

structure RResponse where
  id : Nat
  output : List RItem
  output_text : String
  deriving Repr, DecidableEq

/-- Agent.call_function specialised to the reviewer's tool list
[write_code_review]: the sentinel for any other name. -/
def r_call_function (rv : CodeReviewer) (nm : String) (p : Bool) (fb : String) :
    CodeReviewer × String :=
  if nm = "write_code_review" then write_code_review rv p fb
  else (rv, "function not found")

/-- Agent.execute_tool_calls on the reviewer: dispatch each function call,
append its function_call_output message, then drain the buffer. -/
def r_execute_items (rv : CodeReviewer) :
    List RItem → CodeReviewer × List Msg
  | [] => (rv, [])
  | .plain :: rest => r_execute_items rv rest
  | .fn_call nm p fb cid :: rest =>
      let rs := r_call_function rv nm p fb
      let drained := rs.1.prepared_message_buffer.get_msg
      let rv2 := { rs.1 with
        prepared_message_buffer := rs.1.prepared_message_buffer.clear_msg }
      let tail := r_execute_items rv2 rest
      (tail.1, (Msg.function_call_output cid rs.2 :: drained) ++ tail.2)

/-- Agent.iterate on the reviewer's inherited fields. -/
def r_iterate (rv : CodeReviewer) : CodeReviewer :=
  let rv1 := if rv.max_calls ≤ rv.call_count then { rv with stop := true } else rv
  { rv1 with call_count := rv1.call_count + 1 }

/-- Agent._create_response on the reviewer. -/
def r_create_response (rv : CodeReviewer) (r : RResponse) :
    Except AgentError (CodeReviewer × RResponse) :=
  if rv.stop then .error .maxCallsExceeded
  else
    let rv1 := r_iterate rv
    .ok ({ rv1 with response_ids := rv1.response_ids ++ [r.id] }, r)

/-- The while loop of Agent.call, running on the reviewer. -/
def r_call_loop (env : Nat → RResponse) :
    Nat → CodeReviewer → List Msg → Option RResponse →
    Except AgentError (CodeReviewer × Option RResponse)
  | 0, rv, _, resp => .ok (rv, resp)
  | fuel + 1, rv, messages, resp =>
      if messages = [] ∨ rv.stop then .ok (rv, resp)
      else
        match r_create_response rv (env rv.response_ids.length) with
        | .error e => .error e
        | .ok (rv1, r) =>
            let rm := r_execute_items rv1 r.output
            r_call_loop env fuel rm.1 rm.2 (some r)

/-- Agent.call, running on the reviewer. -/
def r_call (env : Nat → RResponse) (fuel : Nat) (rv : CodeReviewer)
    (messages : List Msg) : Except AgentError (CodeReviewer × String) :=
  if messages = [] then .error .valueError
  else
    match r_call_loop env fuel rv messages none with
    | .error e => .error e
    | .ok (rv1, none) => .ok (rv1, "No response")
    | .ok (rv1, some r) => .ok (rv1, r.output_text)

/-- Agent.reset_call_count on the reviewer. -/
def r_reset_call_count (rv : CodeReviewer) : CodeReviewer :=
  { rv with call_count := 0, stop := false }

/-- CodeReviewer.reset (code_reviewer.py lines 111-118): clear verdict,
feedback, stop flag and conversation chain.  The call counter is not reset
here. -/
def CodeReviewer.reset (rv : CodeReviewer) : CodeReviewer :=
  { rv with pass_ := false, feedback := "", stop := false, response_ids := [] }

/-- CodeReviewer.review (code_reviewer.py lines 76-109): drive the reviewer's
whole call loop on the code and task messages, then return the recorded
verdict and feedback. The file read is replaced by the `code` argument. -/
def CodeReviewer.review (env : Nat → RResponse) (fuel : Nat)
    (rv : CodeReviewer) (code : String) :
    Except AgentError (CodeReviewer × Bool × String) :=
  match r_call env fuel rv
      [Msg.user ("Code to be reviewed:\n ```python\n" ++ code ++ "\n```"),
       Msg.user ("The task the code should align with:\n " ++ rv.task)] with
  | .error e => .error e
  | .ok (rv1, _) => .ok (rv1, rv1.pass_, rv1.feedback)

/-- WritePython.write_python (tools/write_python.py lines 37-73): the file
write is an external side effect and the pylint output is supplied as the
`errors` string; if it is longer than 10 characters the raw lint output is
returned without engaging the reviewer, otherwise the reviewer's verdict
state is reset and its whole loop is driven, and its verdict and feedback
become the returned text. -/
def write_python (env : Nat → RResponse) (fuel : Nat) (rv : CodeReviewer)
    (filename code errors : String) :
    Except AgentError (CodeReviewer × String) :=
  if 10 < errors.length then .ok (rv, filename ++ ": " ++ errors)
  else
    match CodeReviewer.review env fuel rv.reset code with
    | .error e => .error e
    | .ok (rv2, p, fb) =>
        if p then
          .ok (rv2, filename ++ " saved successfully. Code passed the review. Feedback: " ++ fb)
        else
          .ok (rv2, filename ++ " saved successfully. Code did not pass the review. Feedback: " ++ fb)

/-! ### HandoffToCoder (tools/handoff_to_coder.py, agents/coder.py) -/

/-- A Coder delegate (agents/coder.py): the inherited Agent state plus the
paired reviewer. -/
structure Coder where
  core : Agent
  reviewer : CodeReviewer

/-- Coder.__init__ under a fresh CodeReviewer(model, task, reporter):
fresh agent state with the coder's tool list and the Agent default budget 10,
paired with a fresh reviewer holding the task. -/
def mk_fresh_coder (ct : List Tool) (task : String) : Coder :=
  { core := mk_agent ct 10, reviewer := mk_code_reviewer task }

/-- The update performed on a registry hit (handoff_to_coder.py lines
118-123): set the paired reviewer's task to the new request and reset both
agents' call counters and stop flags.  Everything else — in particular the
delegate's conversation chain response_ids — is left untouched. -/
def coder_handoff_update (task : String) (c : Coder) : Coder :=
  { core := c.core.reset_call_count,
    reviewer := r_reset_call_count { c.reviewer with task := task } }

/-- The `for c in self.coders:` lookup loop: every entry whose id matches is
updated in place, and the last match becomes the coder to call (the registry
only ever holds one entry per id, since entries are appended only on a
miss). -/
def lookup_update (task : String) (cid : Int) :
    List (Int × Coder) → Option Coder × List (Int × Coder)
  | [] => (none, [])
  | (i, c) :: rest =>
      if i = cid then
        let c1 := coder_handoff_update task c
        let fr := lookup_update task cid rest
        (some (fr.1.getD c1), (i, c1) :: fr.2)
      else
        let fr := lookup_update task cid rest
        (fr.1, (i, c) :: fr.2)

/-- The handoff registry (HandoffToCoder.coders). -/
structure HandoffRegistry where
  coders : List (Int × Coder)

/-- The coder object is aliased by its registry entry, so the state the call
leaves behind is what later handoffs to the same id will see: write the
called coder back into its entry. -/
def write_back (cid : Int) (c : Coder) :
    List (Int × Coder) → List (Int × Coder)
  | [] => []
  | (i, c0) :: rest => (i, if i = cid then c else c0) :: write_back cid c rest

/-- HandoffToCoder.handoff_to_coder (lines 104-154): look the id up in the
registry, updating a hit as coder_handoff_update does; on a miss construct a
fresh delegate/reviewer pair and append it; then send the task as a user
message into the delegate's call loop and return its textual response.
The reporter plumbing (sub_reporter) is logging only and is dropped. -/
def handoff_to_coder (env : Nat → Response) (fuel : Nat) (ct : List Tool)
    (st : HandoffRegistry) (task : String) (coder_id : Int) :
    Except AgentError (HandoffRegistry × String) :=
  match lookup_update task coder_id st.coders with
  | (some c, coders1) =>
      match c.core.call env fuel [Msg.user task] with
      | .error e => .error e
      | .ok (core1, text) =>
          .ok (⟨write_back coder_id { c with core := core1 } coders1⟩, text)
  | (none, coders1) =>
      let c := mk_fresh_coder ct task
      match c.core.call env fuel [Msg.user task] with
      | .error e => .error e
      | .ok (core1, text) =>
          .ok (⟨coders1 ++ [(coder_id, { c with core := core1 })]⟩, text)

/-! ### Buffer instance identity (agents/agent.py line 40, agents/coder.py)

Python evaluates a function's default parameter expressions once, when the
enclosing `def` is executed; the default
`prepared_message_buffer: preparedMsgBuff = preparedMsgBuff()` of
Agent.__init__ therefore allocates exactly one buffer object when agent.py is
loaded, and every Agent constructed without an explicit buffer argument binds
that same object.  Buffer objects are modelled by allocation addresses. -/

abbrev BuffAddr := Nat

/-- The single buffer object allocated for the default argument when agent.py
is loaded. -/
def agent_default_buffer : BuffAddr := 0

/-- The buffer an Agent construction binds: the explicitly passed object, or
the module-level default object. -/
def agent_init_buffer : Option BuffAddr → BuffAddr
  | some b => b
  | none => agent_default_buffer

/-- Coder.__init__ (agents/coder.py lines 46-72) forwards to Agent.__init__
without a prepared_message_buffer argument, and handoff_to_coder constructs
each delegate that way, whatever its key. -/
def handoff_delegate_buffer (_coder_id : Int) : BuffAddr :=
  agent_init_buffer none

/-- The isolation property the specification asserts for sibling delegates:
delegates of distinct handoff keys reference distinct buffer instances. -/
def delegates_have_own_buffers : Prop :=
  ∀ k1 k2 : Int, k1 ≠ k2 → handoff_delegate_buffer k1 ≠ handoff_delegate_buffer k2

/-- A stopped agent used as the concrete input of the C3 theorems. -/
def stopped_demo_agent : Agent :=
  { tools := [], max_calls := 3, call_count := 4, stop := true,
    response_ids := [7], prepared_message_buffer := .empty }

/-- A concrete tool used by the C5 witness. -/
def echo_tool (tag : String) : Tool :=
  ⟨"echo", fun args b => (tag ++ args, b)⟩

/-- The environment used by the C1 witness: every turn requests one tool
call. -/
def w1_env : Nat → Response := fun j => ⟨j, [Item.function_call "f" "x" "c"], "t"⟩

/-- The environment of the C7 witness: turns without tool calls. -/
def w7_env : Nat → Response := fun j => ⟨j, [], "ok"⟩

def w7_core1 : Agent :=
  { tools := [], max_calls := 10, call_count := 1, stop := false,
    response_ids := [0], prepared_message_buffer := .empty }

def w7_core2 : Agent :=
  { w7_core1 with response_ids := [0, 1] }

def w7_c1 : Coder := { core := w7_core1, reviewer := mk_code_reviewer "t1" }

def w7_c2 : Coder := { core := w7_core2, reviewer := mk_code_reviewer "t2" }

def w7_cN : Coder := { core := w7_core1, reviewer := mk_code_reviewer "t3" }

/-- Whether a reviewer-turn item is a call of the verdict-recording tool. -/
def is_verdict_call : RItem → Bool
  | .fn_call nm _ _ _ => nm == "write_code_review"
  | .plain => false

/-- Whether a reviewer-turn item is a function call at all. -/
def is_fn_call : RItem → Bool
  | .fn_call _ _ _ _ => true
  | .plain => false

/-- The environment of the C9 witness: every reviewer turn requests one tool
call, never the verdict tool. -/
def w9_env : Nat → RResponse :=
  fun j => ⟨j, [RItem.fn_call "run" true "" "c"], "txt"⟩

instance (m : TaskManager) : Decidable (at_most_one_active m) := by
  unfold at_most_one_active; infer_instance

instance (m : TaskManager) : Decidable (pointer_consistent m) := by
  unfold pointer_consistent; infer_instance

/-! ## Theorems -/

/-- C4: on an empty message list, Agent.call raises the invalid-input
ValueError before any side effect — the loop is never entered, so no turn is
created and neither the counter nor the stop flag is touched. -/
theorem empty_messages_rejected_no_side_effect
    (env : Nat → Response) (fuel : Nat) (a : Agent) :
    a.call env fuel [] = .error .valueError := rfl

/-- C6: drains of the deferred message buffer are exhaustive and
order-preserving — staging A, B, C into a fresh buffer and draining returns
exactly [A, B, C] and empties the buffer, an immediately following drain
returns nothing, and in general a drain returns every message staged at drain
time and removes all of them. -/
theorem buffer_drain_exhaustive_ordered :
    (∀ A B C : Msg,
      drain_all (((preparedMsgBuff.empty.add_msg A).add_msg B).add_msg C) =
        ([A, B, C], preparedMsgBuff.empty) ∧
      drain_all (drain_all (((preparedMsgBuff.empty.add_msg A).add_msg B).add_msg C)).2 =
        ([], preparedMsgBuff.empty)) ∧
    ∀ b : preparedMsgBuff,
      (drain_all b).1 = b.msgs ∧ (drain_all b).2.msgs = [] := by
  refine ⟨fun A B C => ⟨rfl, rfl⟩, fun b => ⟨rfl, rfl⟩⟩

/-- C8: contrary to the stated isolation property, every delegate Agent
created under a Handoff binds the single buffer object allocated for
Agent.__init__'s default argument (a Python mutable default), so delegates
of distinct handoff keys share one buffer instance. -/
theorem handoff_delegates_share_default_buffer :
    handoff_delegate_buffer 1 = handoff_delegate_buffer 2 ∧
    handoff_delegate_buffer 1 = agent_default_buffer ∧
    ¬ delegates_have_own_buffers := by
  refine ⟨rfl, rfl, fun h => ?_⟩
  exact h 1 2 (by decide) rfl

theorem call_loop_of_stop (env : Nat → Response) (fuel : Nat) (a : Agent)
    (messages : List Msg) (resp : Option Response) (h : a.stop = true) :
    call_loop env fuel a messages resp = .ok (a, resp) := by
  cases fuel with
  | zero => rfl
  | succ n => simp [call_loop, h]

/-- C3 counterexample: on an agent whose stop flag is set, Agent.call with a
non-empty message list does not fail with the exhaustion error — it returns
normally with the "No response" sentinel (and an unchanged agent). -/
theorem stopped_call_returns_no_response_not_error :
    stopped_demo_agent.call (fun _ => ⟨0, [], "pong"⟩) 5 [Msg.user "hi"] =
      .ok (stopped_demo_agent, "No response") ∧
    ∀ e : AgentError,
      stopped_demo_agent.call (fun _ => ⟨0, [], "pong"⟩) 5 [Msg.user "hi"] ≠
        .error e := by
  refine ⟨rfl, fun e h => ?_⟩
  rw [show stopped_demo_agent.call (fun _ => ⟨0, [], "pong"⟩) 5 [Msg.user "hi"] =
        .ok (stopped_demo_agent, "No response") from rfl] at h
  exact Except.noConfusion h

/-- C3 (amended): once the stop flag is set, every turn-creation attempt
(_create_response) fails immediately with MaxCallsExceededError and creates
no turn, while Agent.call with a non-empty message list creates zero new
turns and returns the "No response" sentinel without raising; only an
explicit reset_call_count clears the counter and the flag. -/
theorem stopped_agent_no_new_turns
    (env : Nat → Response) (fuel : Nat) (a : Agent) (messages : List Msg)
    (hstop : a.stop = true) (hmsg : messages ≠ []) :
    (∀ r, a.create_response r = .error .maxCallsExceeded) ∧
    a.call env fuel messages = .ok (a, "No response") ∧
    a.reset_call_count.call_count = 0 ∧ a.reset_call_count.stop = false := by
  refine ⟨fun r => by simp [Agent.create_response, hstop], ?_, rfl, rfl⟩
  simp [Agent.call, hmsg, call_loop_of_stop env fuel a messages none hstop]

/-- Witness for stopped_agent_no_new_turns at a concrete stopped agent. -/
theorem stopped_agent_no_new_turns_witness :
    stopped_demo_agent.stop = true ∧ ([Msg.user "hi"] : List Msg) ≠ [] ∧
    ((∀ r, stopped_demo_agent.create_response r = .error .maxCallsExceeded) ∧
      stopped_demo_agent.call (fun _ => ⟨1, [], "x"⟩) 4 [Msg.user "hi"] =
        .ok (stopped_demo_agent, "No response") ∧
      stopped_demo_agent.reset_call_count.call_count = 0 ∧
      stopped_demo_agent.reset_call_count.stop = false) :=
  ⟨rfl, by simp,
    stopped_agent_no_new_turns (fun _ => ⟨1, [], "x"⟩) 4 stopped_demo_agent
      [Msg.user "hi"] rfl (by simp)⟩

theorem call_function_not_found (tools : List Tool) (nm args : String)
    (b : preparedMsgBuff) (h : ∀ t ∈ tools, t.name ≠ nm) :
    call_function tools nm args b = ("function not found", b) := by
  induction tools with
  | nil => rfl
  | cons t ts ih =>
      have hn := h t (List.mem_cons_self t ts)
      simp only [call_function, if_neg hn]
      exact ih fun u hu => h u (List.mem_cons_of_mem t hu)

theorem call_function_first_match (ts1 : List Tool) (t : Tool)
    (ts2 : List Tool) (nm args : String) (b : preparedMsgBuff)
    (hname : t.name = nm) (hbefore : ∀ u ∈ ts1, u.name ≠ nm) :
    call_function (ts1 ++ t :: ts2) nm args b = t.run args b := by
  induction ts1 with
  | nil => simp [call_function, hname]
  | cons u us ih =>
      have hu := hbefore u (List.mem_cons_self u us)
      simp only [List.cons_append, call_function, if_neg hu]
      exact ih fun v hv => hbefore v (List.mem_cons_of_mem u hv)

/-- C5: a tool-call request whose name matches no registered tool is answered
with the fixed "function not found" sentinel as that call id's tool-result
message — no error is raised and the remaining items are processed normally;
when the name does match, the first matching tool in registration order is
the one invoked. -/
theorem tool_dispatch_sentinel_and_first_match
    (tools : List Tool) (nm args : String) (b : preparedMsgBuff) :
    ((∀ t ∈ tools, t.name ≠ nm) →
      call_function tools nm args b = ("function not found", b) ∧
      ∀ cid rest,
        execute_items tools (Item.function_call nm args cid :: rest) b =
          ((Msg.function_call_output cid "function not found" :: b.get_msg) ++
              (execute_items tools rest b.clear_msg).1,
            (execute_items tools rest b.clear_msg).2)) ∧
    ∀ ts1 t ts2, tools = ts1 ++ t :: ts2 → t.name = nm →
      (∀ u ∈ ts1, u.name ≠ nm) →
      call_function tools nm args b = t.run args b := by
  constructor
  · intro h
    refine ⟨call_function_not_found tools nm args b h, fun cid rest => ?_⟩
    simp [execute_items, call_function_not_found tools nm args b h]
  · intro ts1 t ts2 hsplit hname hbefore
    subst hsplit
    exact call_function_first_match ts1 t ts2 nm args b hname hbefore

/-- Witness for tool_dispatch_sentinel_and_first_match: the unmatched name
"finish" yields the sentinel, and with two same-named tools registered the
first one wins. -/
theorem tool_dispatch_witness :
    ((∀ t ∈ [echo_tool "first", echo_tool "second"], t.name ≠ "finish") ∧
      (call_function [echo_tool "first", echo_tool "second"] "finish" "x"
          preparedMsgBuff.empty = ("function not found", preparedMsgBuff.empty) ∧
        ∀ cid rest,
          execute_items [echo_tool "first", echo_tool "second"]
              (Item.function_call "finish" "x" cid :: rest) preparedMsgBuff.empty =
            ((Msg.function_call_output cid "function not found" ::
                  preparedMsgBuff.empty.get_msg) ++
                (execute_items [echo_tool "first", echo_tool "second"] rest
                  preparedMsgBuff.empty.clear_msg).1,
              (execute_items [echo_tool "first", echo_tool "second"] rest
                preparedMsgBuff.empty.clear_msg).2))) ∧
    call_function [echo_tool "first", echo_tool "second"] "echo" "x"
        preparedMsgBuff.empty =
      (echo_tool "first").run "x" preparedMsgBuff.empty := by
  have hno : ∀ t ∈ [echo_tool "first", echo_tool "second"], t.name ≠ "finish" := by
    simp [echo_tool]
  refine ⟨⟨hno, (tool_dispatch_sentinel_and_first_match _ "finish" "x" _).1 hno⟩, ?_⟩
  exact (tool_dispatch_sentinel_and_first_match
      [echo_tool "first", echo_tool "second"] "echo" "x" preparedMsgBuff.empty).2
    [] (echo_tool "first") [echo_tool "second"] rfl rfl (by simp)

theorem iterate_under (a : Agent) (h : a.call_count < a.max_calls) :
    a.iterate = { a with call_count := a.call_count + 1 } := by
  simp [Agent.iterate, if_neg (Nat.not_le.mpr h)]

theorem iterate_at_budget (a : Agent) (h : a.max_calls ≤ a.call_count) :
    a.iterate = { a with stop := true, call_count := a.call_count + 1 } := by
  simp [Agent.iterate, if_pos h]

theorem create_response_under (a : Agent) (r : Response) (hs : a.stop = false)
    (h : a.call_count < a.max_calls) :
    a.create_response r =
      .ok ({ a with
          call_count := a.call_count + 1,
          response_ids := a.response_ids ++ [r.id] }, r) := by
  simp [Agent.create_response, hs, iterate_under a h]

theorem create_response_over (a : Agent) (r : Response) (hs : a.stop = false)
    (h : a.max_calls ≤ a.call_count) :
    a.create_response r =
      .ok ({ a with
          stop := true, call_count := a.call_count + 1,
          response_ids := a.response_ids ++ [r.id] }, r) := by
  simp [Agent.create_response, hs, iterate_at_budget a h]

theorem iter_attempts_under (env : Nat → Response) :
    ∀ (n : Nat) (a : Agent), a.stop = false →
      a.call_count + n ≤ a.max_calls →
      ∃ a1, iter_attempts env n a = .ok a1 ∧ a1.stop = false ∧
        a1.call_count = a.call_count + n ∧
        a1.response_ids.length = a.response_ids.length + n ∧
        a1.max_calls = a.max_calls ∧ a1.tools = a.tools ∧
        a1.prepared_message_buffer = a.prepared_message_buffer := by
  intro n
  induction n with
  | zero =>
      intro a hs _
      exact ⟨a, rfl, hs, by omega, by omega, rfl, rfl, rfl⟩
  | succ k ih =>
      intro a hs hle
      have hlt : a.call_count < a.max_calls := by omega
      obtain ⟨a1, h1, hs1, hc1, hl1, hm1, ht1, hb1⟩ :=
        ih { a with
              call_count := a.call_count + 1,
              response_ids := a.response_ids ++ [(env a.response_ids.length).id] }
          hs (by show a.call_count + 1 + k ≤ a.max_calls; omega)
      have hc1' : a1.call_count = a.call_count + 1 + k := hc1
      have hl1' : a1.response_ids.length =
          (a.response_ids ++ [(env a.response_ids.length).id]).length + k := hl1
      refine ⟨a1, ?_, hs1, by omega, ?_, hm1, ht1, hb1⟩
      · rw [iter_attempts, create_response_under a _ hs hlt]
        exact h1
      · simp only [List.length_append, List.length_cons, List.length_nil] at hl1'
        omega

theorem iter_attempts_stopped (env : Nat → Response) (a : Agent)
    (hs : a.stop = true) (n : Nat) (hn : 1 ≤ n) :
    iter_attempts env n a = .error .maxCallsExceeded := by
  cases n with
  | zero => omega
  | succ k => simp [iter_attempts, Agent.create_response, hs]

theorem iter_attempts_one (env : Nat → Response) (a a1 : Agent) (r : Response)
    (h : a.create_response (env a.response_ids.length) = .ok (a1, r)) :
    iter_attempts env 1 a = .ok a1 := by
  simp only [iter_attempts, h]

theorem iter_attempts_add (env : Nat → Response) (m n : Nat) :
    ∀ a, iter_attempts env (m + n) a =
      match iter_attempts env m a with
      | .ok b => iter_attempts env n b
      | .error e => .error e := by
  induction m with
  | zero => intro a; simp [iter_attempts, Nat.zero_add]
  | succ k ih =>
      intro a
      rw [show k + 1 + n = (k + n) + 1 from by omega]
      simp only [iter_attempts]
      cases a.create_response (env a.response_ids.length) with
      | error e => rfl
      | ok pr => exact ih pr.1

/-- C1: with budget B ≥ 1 and counter starting at 0, each of the first B
turn-creation attempts observes counter < B, leaves the stop flag false,
increments the counter and creates a turn; the (B+1)-th attempt sets stop
true yet still creates that turn — and inside the call loop its tool calls
are still processed — and every attempt after that fails with
MaxCallsExceededError without creating a turn. -/
theorem agent_budget_overrun_boundary
    (T : List Tool) (env : Nat → Response) (B : Nat) (_hB : 1 ≤ B) :
    (∀ n, n ≤ B → ∃ a, iter_attempts env n (mk_agent T B) = .ok a ∧
        a.stop = false ∧ a.call_count = n ∧ a.response_ids.length = n) ∧
    (∃ a, iter_attempts env (B + 1) (mk_agent T B) = .ok a ∧
        a.stop = true ∧ a.call_count = B + 1 ∧ a.response_ids.length = B + 1 ∧
        ∀ r, a.create_response r = .error .maxCallsExceeded) ∧
    (∀ k, B + 2 ≤ k →
        iter_attempts env k (mk_agent T B) = .error .maxCallsExceeded) ∧
    (∀ aB msgs r0 fuel, iter_attempts env B (mk_agent T B) = .ok aB →
        msgs ≠ [] →
        ∃ a2, call_loop env (fuel + 1) aB msgs r0 = .ok (a2, some (env B)) ∧
          a2.stop = true ∧ a2.call_count = B + 1 ∧
          a2.response_ids = aB.response_ids ++ [(env B).id] ∧
          a2.prepared_message_buffer =
            (execute_items aB.tools (env B).output aB.prepared_message_buffer).2) := by
  obtain ⟨aB0, hB0, hs0, hc0, hl0, hm0, ht0, hb0⟩ :=
    iter_attempts_under env B (mk_agent T B) rfl (by simp [mk_agent])
  have hc0' : aB0.call_count = B := by simpa [mk_agent] using hc0
  have hl0' : aB0.response_ids.length = B := by simpa [mk_agent] using hl0
  have hm0' : aB0.max_calls = B := by simpa [mk_agent] using hm0
  have hover : aB0.create_response (env B) =
      .ok ({ aB0 with
              stop := true, call_count := aB0.call_count + 1,
              response_ids := aB0.response_ids ++ [(env B).id] }, env B) :=
    create_response_over aB0 (env B) hs0 (by omega)
  have hB1 : iter_attempts env (B + 1) (mk_agent T B) =
      .ok ({ aB0 with
        stop := true, call_count := aB0.call_count + 1,
        response_ids := aB0.response_ids ++ [(env B).id] }) := by
    rw [iter_attempts_add env B 1, hB0]
    exact iter_attempts_one env aB0 _ (env B) (by rw [hl0']; exact hover)
  refine ⟨?_, ?_, ?_, ?_⟩
  · intro n hn
    obtain ⟨a, h1, h2, h3, h4, _, _, _⟩ :=
      iter_attempts_under env n (mk_agent T B) rfl (by simp [mk_agent]; omega)
    exact ⟨a, h1, h2, by simpa [mk_agent] using h3, by simpa [mk_agent] using h4⟩
  · refine ⟨{ aB0 with
        stop := true, call_count := aB0.call_count + 1,
        response_ids := aB0.response_ids ++ [(env B).id] }, hB1, rfl,
      by show aB0.call_count + 1 = B + 1; omega, ?_, ?_⟩
    · show (aB0.response_ids ++ [(env B).id]).length = B + 1
      simp [hl0']
    · intro r
      rfl
  · intro k hk
    rw [show k = (B + 1) + (k - (B + 1)) from by omega]
    rw [iter_attempts_add env (B + 1) (k - (B + 1)), hB1]
    exact iter_attempts_stopped env _ rfl _ (by omega)
  · intro aB msgs r0 fuel hiter hmsg
    rw [hB0] at hiter
    have haB : aB0 = aB := by
      cases hiter; rfl
    subst haB
    refine ⟨{ aB0 with
          stop := true, call_count := aB0.call_count + 1,
          response_ids := aB0.response_ids ++ [(env B).id],
          prepared_message_buffer :=
            (execute_items aB0.tools (env B).output
              aB0.prepared_message_buffer).2 }, ?_,
      rfl, by show aB0.call_count + 1 = B + 1; omega, rfl, rfl⟩
    rw [call_loop, if_neg (by simp [hmsg, hs0])]
    rw [hl0', hover]
    exact call_loop_of_stop env fuel _ _ _ rfl

/-- Witness for agent_budget_overrun_boundary at budget 2 with an empty tool
list. -/
theorem agent_budget_overrun_boundary_witness :
    1 ≤ 2 ∧
    ((∀ n, n ≤ 2 → ∃ a, iter_attempts w1_env n (mk_agent [] 2) = .ok a ∧
        a.stop = false ∧ a.call_count = n ∧ a.response_ids.length = n) ∧
    (∃ a, iter_attempts w1_env (2 + 1) (mk_agent [] 2) = .ok a ∧
        a.stop = true ∧ a.call_count = 2 + 1 ∧ a.response_ids.length = 2 + 1 ∧
        ∀ r, a.create_response r = .error .maxCallsExceeded) ∧
    (∀ k, 2 + 2 ≤ k →
        iter_attempts w1_env k (mk_agent [] 2) = .error .maxCallsExceeded) ∧
    (∀ aB msgs r0 fuel, iter_attempts w1_env 2 (mk_agent [] 2) = .ok aB →
        msgs ≠ [] →
        ∃ a2, call_loop w1_env (fuel + 1) aB msgs r0 = .ok (a2, some (w1_env 2)) ∧
          a2.stop = true ∧ a2.call_count = 2 + 1 ∧
          a2.response_ids = aB.response_ids ++ [(w1_env 2).id] ∧
          a2.prepared_message_buffer =
            (execute_items aB.tools (w1_env 2).output
              aB.prepared_message_buffer).2)) :=
  ⟨by decide, agent_budget_overrun_boundary [] w1_env 2 (by decide)⟩

theorem iterate_response_ids (a : Agent) :
    a.iterate.response_ids = a.response_ids := by
  simp only [Agent.iterate]
  split <;> rfl

theorem call_loop_appends_ids (env : Nat → Response) :
    ∀ (fuel : Nat) (a : Agent) (msgs : List Msg) (r0 : Option Response)
      (a1 : Agent) (r1 : Option Response),
      call_loop env fuel a msgs r0 = .ok (a1, r1) →
      ∃ l, a1.response_ids = a.response_ids ++ l := by
  intro fuel
  induction fuel with
  | zero =>
      intro a msgs r0 a1 r1 h
      cases h
      exact ⟨[], by simp⟩
  | succ k ih =>
      intro a msgs r0 a1 r1 h
      rw [call_loop] at h
      by_cases hg : msgs = [] ∨ a.stop
      · rw [if_pos hg] at h
        cases h
        exact ⟨[], by simp⟩
      · rw [if_neg hg] at h
        have hs : a.stop = false := by
          cases hx : a.stop with
          | false => rfl
          | true => exact absurd (Or.inr (by simp [hx])) hg
        have hcr : a.create_response (env a.response_ids.length) =
            .ok ({ a.iterate with
                response_ids :=
                  a.iterate.response_ids ++ [(env a.response_ids.length).id] },
              env a.response_ids.length) := by
          simp [Agent.create_response, hs]
        rw [hcr] at h
        obtain ⟨l, hl⟩ := ih _ _ _ _ _ h
        refine ⟨(env a.response_ids.length).id :: l, ?_⟩
        rw [hl]
        simp [Agent.execute_tool_calls, iterate_response_ids]

theorem call_appends_ids (env : Nat → Response) (fuel : Nat) (a : Agent)
    (msgs : List Msg) (a1 : Agent) (t : String)
    (h : a.call env fuel msgs = .ok (a1, t)) :
    ∃ l, a1.response_ids = a.response_ids ++ l := by
  rw [Agent.call] at h
  by_cases hm : msgs = []
  · rw [if_pos hm] at h
    exact Except.noConfusion h
  · rw [if_neg hm] at h
    cases hcl : call_loop env fuel a msgs none with
    | error e =>
        rw [hcl] at h
        exact Except.noConfusion h
    | ok pr =>
        rw [hcl] at h
        obtain ⟨a2, r2⟩ := pr
        cases r2 with
        | none =>
            cases h
            exact call_loop_appends_ids env fuel a msgs none _ _ hcl
        | some r =>
            cases h
            exact call_loop_appends_ids env fuel a msgs none _ _ hcl

theorem handoff_eq_hit (env : Nat → Response) (fuel : Nat) (ct : List Tool)
    (st : HandoffRegistry) (task : String) (cid : Int) (c : Coder)
    (coders1 : List (Int × Coder))
    (hl : lookup_update task cid st.coders = (some c, coders1)) :
    handoff_to_coder env fuel ct st task cid =
      match c.core.call env fuel [Msg.user task] with
      | .error e => .error e
      | .ok (core1, text) =>
          .ok (⟨write_back cid { c with core := core1 } coders1⟩, text) := by
  unfold handoff_to_coder
  rw [hl]

theorem handoff_eq_miss (env : Nat → Response) (fuel : Nat) (ct : List Tool)
    (st : HandoffRegistry) (task : String) (cid : Int)
    (coders1 : List (Int × Coder))
    (hl : lookup_update task cid st.coders = (none, coders1)) :
    handoff_to_coder env fuel ct st task cid =
      match (mk_fresh_coder ct task).core.call env fuel [Msg.user task] with
      | .error e => .error e
      | .ok (core1, text) =>
          .ok (⟨coders1 ++
              [(cid, { mk_fresh_coder ct task with core := core1 })]⟩, text) := by
  unfold handoff_to_coder
  rw [hl]

/-- C7: two handoffs with the same key on a fresh registry create exactly one
delegate/reviewer pair; the second handoff updates the paired reviewer's task
and resets both agents' counters and stop flags while keeping the delegate's
recorded response ids, and the second exchange appends to that same chain; a
handoff with a different key appends a freshly constructed pair whose
conversation chain starts empty. -/
theorem handoff_same_key_reuses_pair
    (env : Nat → Response) (fuel : Nat) (ct : List Tool)
    (task1 task2 task3 : String) (k k2 : Int) (hk : k2 ≠ k)
    (st1 st2 st3 : HandoffRegistry) (t1 t2 t3 : String)
    (h1 : handoff_to_coder env fuel ct ⟨[]⟩ task1 k = .ok (st1, t1))
    (h2 : handoff_to_coder env fuel ct st1 task2 k = .ok (st2, t2))
    (h3 : handoff_to_coder env fuel ct st2 task3 k2 = .ok (st3, t3)) :
    ∃ c1 core2,
      st1.coders = [(k, c1)] ∧
      (coder_handoff_update task2 c1).core.call env fuel [Msg.user task2] =
        .ok (core2, t2) ∧
      st2.coders = [(k, { coder_handoff_update task2 c1 with core := core2 })] ∧
      (coder_handoff_update task2 c1).reviewer.task = task2 ∧
      (coder_handoff_update task2 c1).core.call_count = 0 ∧
      (coder_handoff_update task2 c1).core.stop = false ∧
      (coder_handoff_update task2 c1).reviewer.call_count = 0 ∧
      (coder_handoff_update task2 c1).reviewer.stop = false ∧
      (coder_handoff_update task2 c1).reviewer.pass_ = c1.reviewer.pass_ ∧
      (coder_handoff_update task2 c1).core.response_ids = c1.core.response_ids ∧
      (∃ l, core2.response_ids = c1.core.response_ids ++ l) ∧
      (mk_fresh_coder ct task3).core.response_ids = [] ∧
      ∃ coreN,
        (mk_fresh_coder ct task3).core.call env fuel [Msg.user task3] =
          .ok (coreN, t3) ∧
        st3.coders =
          st2.coders ++ [(k2, { mk_fresh_coder ct task3 with core := coreN })] := by
  rw [handoff_eq_miss env fuel ct ⟨[]⟩ task1 k [] rfl] at h1
  cases hc1 : (mk_fresh_coder ct task1).core.call env fuel [Msg.user task1] with
  | error e =>
      rw [hc1] at h1
      exact Except.noConfusion h1
  | ok pr1 =>
  obtain ⟨core1, text1⟩ := pr1
  rw [hc1] at h1
  cases h1
  have hl2 : lookup_update task2 k
      ((⟨[] ++ [(k, { mk_fresh_coder ct task1 with core := core1 })]⟩ :
        HandoffRegistry)).coders =
      (some (coder_handoff_update task2
          { mk_fresh_coder ct task1 with core := core1 }),
        [(k, coder_handoff_update task2
          { mk_fresh_coder ct task1 with core := core1 })]) := by
    simp [lookup_update]
  rw [handoff_eq_hit env fuel ct _ task2 k _ _ hl2] at h2
  cases hc2 : (coder_handoff_update task2
      { mk_fresh_coder ct task1 with core := core1 }).core.call
        env fuel [Msg.user task2] with
  | error e =>
      rw [hc2] at h2
      exact Except.noConfusion h2
  | ok pr2 =>
  obtain ⟨core2, text2⟩ := pr2
  rw [hc2] at h2
  cases h2
  have hl3 : lookup_update task3 k2
      ((⟨write_back k
          { coder_handoff_update task2
              { mk_fresh_coder ct task1 with core := core1 } with
            core := core2 }
          [(k, coder_handoff_update task2
            { mk_fresh_coder ct task1 with core := core1 })]⟩ :
        HandoffRegistry)).coders =
      (none, write_back k
          { coder_handoff_update task2
              { mk_fresh_coder ct task1 with core := core1 } with
            core := core2 }
          [(k, coder_handoff_update task2
            { mk_fresh_coder ct task1 with core := core1 })]) := by
    simp [write_back, lookup_update, show ¬ k = k2 from fun h => hk h.symm]
  rw [handoff_eq_miss env fuel ct _ task3 k2 _ hl3] at h3
  cases hc3 : (mk_fresh_coder ct task3).core.call env fuel [Msg.user task3] with
  | error e =>
      rw [hc3] at h3
      exact Except.noConfusion h3
  | ok pr3 =>
  obtain ⟨coreN, text3⟩ := pr3
  rw [hc3] at h3
  cases h3
  refine ⟨{ mk_fresh_coder ct task1 with core := core1 }, core2,
    by simp, hc2, by simp [write_back], rfl, rfl, rfl, rfl, rfl, rfl,
    rfl, ?_, rfl, ⟨coreN, rfl, by simp [write_back]⟩⟩
  exact call_appends_ids env fuel
    (coder_handoff_update task2
      { mk_fresh_coder ct task1 with core := core1 }).core
    [Msg.user task2] core2 t2 hc2

/-- Witness for handoff_same_key_reuses_pair: keys 1 and 2 on a fresh
registry, with concretely computed registry states. -/
theorem handoff_same_key_reuses_pair_witness :
    ((2 : Int) ≠ 1) ∧
    handoff_to_coder w7_env 2 [] ⟨[]⟩ "t1" 1 = .ok (⟨[(1, w7_c1)]⟩, "ok") ∧
    handoff_to_coder w7_env 2 [] ⟨[(1, w7_c1)]⟩ "t2" 1 =
      .ok (⟨[(1, w7_c2)]⟩, "ok") ∧
    handoff_to_coder w7_env 2 [] ⟨[(1, w7_c2)]⟩ "t3" 2 =
      .ok (⟨[(1, w7_c2), (2, w7_cN)]⟩, "ok") ∧
    (∃ c1 core2,
      (⟨[(1, w7_c1)]⟩ : HandoffRegistry).coders = [(1, c1)] ∧
      (coder_handoff_update "t2" c1).core.call w7_env 2 [Msg.user "t2"] =
        .ok (core2, "ok") ∧
      (⟨[(1, w7_c2)]⟩ : HandoffRegistry).coders =
        [(1, { coder_handoff_update "t2" c1 with core := core2 })] ∧
      (coder_handoff_update "t2" c1).reviewer.task = "t2" ∧
      (coder_handoff_update "t2" c1).core.call_count = 0 ∧
      (coder_handoff_update "t2" c1).core.stop = false ∧
      (coder_handoff_update "t2" c1).reviewer.call_count = 0 ∧
      (coder_handoff_update "t2" c1).reviewer.stop = false ∧
      (coder_handoff_update "t2" c1).reviewer.pass_ = c1.reviewer.pass_ ∧
      (coder_handoff_update "t2" c1).core.response_ids = c1.core.response_ids ∧
      (∃ l, core2.response_ids = c1.core.response_ids ++ l) ∧
      (mk_fresh_coder [] "t3").core.response_ids = [] ∧
      ∃ coreN,
        (mk_fresh_coder [] "t3").core.call w7_env 2 [Msg.user "t3"] =
          .ok (coreN, "ok") ∧
        (⟨[(1, w7_c2), (2, w7_cN)]⟩ : HandoffRegistry).coders =
          (⟨[(1, w7_c2)]⟩ : HandoffRegistry).coders ++
            [(2, { mk_fresh_coder [] "t3" with core := coreN })]) :=
  ⟨by decide, rfl, rfl, rfl,
    handoff_same_key_reuses_pair w7_env 2 [] "t1" "t2" "t3" 1 2 (by decide)
      ⟨[(1, w7_c1)]⟩ ⟨[(1, w7_c2)]⟩ ⟨[(1, w7_c2), (2, w7_cN)]⟩ "ok" "ok" "ok"
      rfl rfl rfl⟩

/-! ### The reviewer-exhaustion property (C9) -/

theorem r_execute_items_no_verdict :
    ∀ (items : List RItem) (rv : CodeReviewer),
      (∀ it ∈ items, is_verdict_call it = false) →
      (r_execute_items rv items).1.pass_ = rv.pass_ ∧
      (r_execute_items rv items).1.feedback = rv.feedback ∧
      (r_execute_items rv items).1.stop = rv.stop ∧
      (r_execute_items rv items).1.call_count = rv.call_count ∧
      (r_execute_items rv items).1.max_calls = rv.max_calls ∧
      ((∃ it ∈ items, is_fn_call it = true) → (r_execute_items rv items).2 ≠ []) := by
  intro items
  induction items with
  | nil =>
      intro rv _
      exact ⟨rfl, rfl, rfl, rfl, rfl, by rintro ⟨it, hit, _⟩; cases hit⟩
  | cons it rest ih =>
      intro rv h
      cases it with
      | plain =>
          obtain ⟨p1, p2, p3, p4, p5, p6⟩ :=
            ih rv (fun u hu => h u (List.mem_cons_of_mem _ hu))
          refine ⟨p1, p2, p3, p4, p5, ?_⟩
          rintro ⟨u, hu, hfu⟩
          rcases List.mem_cons.mp hu with huh | hut
          · subst huh
            exact absurd hfu (by simp [is_fn_call])
          · exact p6 ⟨u, hut, hfu⟩
      | fn_call nm p fb cid =>
          have hnm : (nm == "write_code_review") = false :=
            h _ (List.mem_cons_self _ _)
          have hnm' : ¬ nm = "write_code_review" := by
            simpa using hnm
          obtain ⟨p1, p2, p3, p4, p5, _⟩ :=
            ih { rv with prepared_message_buffer := rv.prepared_message_buffer.clear_msg }
              (fun u hu => h u (List.mem_cons_of_mem _ hu))
          have hred : r_execute_items rv (RItem.fn_call nm p fb cid :: rest) =
              ((r_execute_items
                  { rv with prepared_message_buffer :=
                      rv.prepared_message_buffer.clear_msg } rest).1,
                (Msg.function_call_output cid "function not found" ::
                    rv.prepared_message_buffer.get_msg) ++
                  (r_execute_items
                    { rv with prepared_message_buffer :=
                        rv.prepared_message_buffer.clear_msg } rest).2) := by
            simp [r_execute_items, r_call_function, hnm']
          rw [hred]
          exact ⟨p1, p2, p3, p4, p5, fun _ => by simp⟩

theorem r_call_loop_no_verdict (env : Nat → RResponse)
    (hvc : ∀ j, ∀ it ∈ (env j).output, is_verdict_call it = false)
    (hfc : ∀ j, ∃ it ∈ (env j).output, is_fn_call it = true) :
    ∀ (fuel : Nat) (rv : CodeReviewer) (msgs : List Msg) (r0 : Option RResponse),
      ∃ rv1 r1, r_call_loop env fuel rv msgs r0 = .ok (rv1, r1) ∧
        rv1.pass_ = rv.pass_ ∧ rv1.feedback = rv.feedback ∧
        (rv.stop = true → rv1.stop = true) ∧
        (msgs ≠ [] → rv.stop = false → rv.call_count ≤ rv.max_calls →
          rv.max_calls < fuel + rv.call_count → rv1.stop = true) := by
  intro fuel
  induction fuel with
  | zero =>
      intro rv msgs r0
      exact ⟨rv, r0, rfl, rfl, rfl, fun h => h, fun _ _ h1 h2 => by omega⟩
  | succ k ih =>
      intro rv msgs r0
      by_cases hg : msgs = [] ∨ rv.stop
      · refine ⟨rv, r0, ?_, rfl, rfl, fun h => h, ?_⟩
        · rw [r_call_loop, if_pos hg]
        · intro hm hs _ _
          rcases hg with hg | hg
          · exact absurd hg hm
          · rw [hs] at hg
            exact absurd hg (by simp)
      · have hm : msgs ≠ [] := fun h => hg (Or.inl h)
        have hs : rv.stop = false := by
          cases hx : rv.stop with
          | false => rfl
          | true => exact absurd (Or.inr (by simp [hx])) hg
        have hcr : r_create_response rv (env rv.response_ids.length) =
            .ok ({ r_iterate rv with
                response_ids :=
                  (r_iterate rv).response_ids ++
                    [(env rv.response_ids.length).id] },
              env rv.response_ids.length) := by
          simp [r_create_response, hs]
        obtain ⟨ex1, ex2, ex3, ex4, ex5, ex6⟩ :=
          r_execute_items_no_verdict ((env rv.response_ids.length)).output
            ({ r_iterate rv with
              response_ids :=
                (r_iterate rv).response_ids ++
                  [(env rv.response_ids.length).id] })
            (hvc rv.response_ids.length)
        obtain ⟨rv1, r1, hloop, q1, q2, q3, q4⟩ :=
          ih (r_execute_items ({ r_iterate rv with
              response_ids :=
                (r_iterate rv).response_ids ++
                  [(env rv.response_ids.length).id] })
              (env rv.response_ids.length).output).1
            (r_execute_items ({ r_iterate rv with
              response_ids :=
                (r_iterate rv).response_ids ++
                  [(env rv.response_ids.length).id] })
              (env rv.response_ids.length).output).2
            (some (env rv.response_ids.length))
        have hloop2 : r_call_loop env (k + 1) rv msgs r0 = .ok (rv1, r1) := by
          rw [r_call_loop, if_neg hg, hcr]
          exact hloop
        have hit_pass : (r_iterate rv).pass_ = rv.pass_ := by
          simp only [r_iterate]
          split <;> rfl
        have hit_fb : (r_iterate rv).feedback = rv.feedback := by
          simp only [r_iterate]
          split <;> rfl
        have hit_count : (r_iterate rv).call_count = rv.call_count + 1 := by
          simp only [r_iterate]
          split <;> rfl
        have hit_max : (r_iterate rv).max_calls = rv.max_calls := by
          simp only [r_iterate]
          split <;> rfl
        have hit_stop : rv.max_calls ≤ rv.call_count →
            (r_iterate rv).stop = true := by
          intro hle
          simp only [r_iterate, if_pos hle]
        have hit_stop2 : rv.call_count < rv.max_calls →
            (r_iterate rv).stop = rv.stop := by
          intro hlt
          simp only [r_iterate, if_neg (Nat.not_le.mpr hlt)]
        refine ⟨rv1, r1, hloop2, ?_, ?_, ?_, ?_⟩
        · rw [q1, ex1]
          exact hit_pass
        · rw [q2, ex2]
          exact hit_fb
        · intro h
          rw [h] at hs
          cases hs
        intro _ _ hcle hflt
        by_cases hcase : rv.max_calls ≤ rv.call_count
        · exact q3 (by rw [ex3]; exact hit_stop hcase)
        · have hlt : rv.call_count < rv.max_calls := by omega
          refine q4 (ex6 (hfc rv.response_ids.length)) ?_ ?_ ?_
          · rw [ex3, hit_stop2 hlt]
            exact hs
          · rw [ex4, ex5, hit_count, hit_max]
            omega
          · rw [ex4, ex5, hit_count, hit_max]
            omega

theorem r_call_of_loop (env : Nat → RResponse) (fuel : Nat)
    (rv : CodeReviewer) (msgs : List Msg) (rv1 : CodeReviewer)
    (r1 : Option RResponse) (hm : msgs ≠ [])
    (h : r_call_loop env fuel rv msgs none = .ok (rv1, r1)) :
    ∃ t, r_call env fuel rv msgs = .ok (rv1, t) := by
  unfold r_call
  rw [if_neg hm, h]
  cases r1 with
  | none => exact ⟨"No response", rfl⟩
  | some r => exact ⟨r.output_text, rfl⟩

/-- C9: when the static check passes the error threshold, write_python resets
the paired reviewer's verdict state before the reviewer's loop runs; if the
reviewer's loop exhausts its own budget before the verdict-recording tool is
ever invoked, write_python returns normally with the default verdict — not
passed, empty feedback — rather than raising an error. -/
theorem reviewer_budget_exhaustion_default_verdict
    (env : Nat → RResponse) (fuel : Nat) (rv : CodeReviewer)
    (filename code errors : String)
    (hlint : errors.length ≤ 10)
    (hvc : ∀ j, ∀ it ∈ (env j).output, is_verdict_call it = false)
    (hfc : ∀ j, ∃ it ∈ (env j).output, is_fn_call it = true)
    (hcount : rv.call_count = 0) (hfuel : rv.max_calls < fuel) :
    rv.reset.pass_ = false ∧ rv.reset.feedback = "" ∧ rv.reset.stop = false ∧
    ∃ rv2, write_python env fuel rv filename code errors =
        .ok (rv2, filename ++
          " saved successfully. Code did not pass the review. Feedback: " ++
          rv2.feedback) ∧
      rv2.pass_ = false ∧ rv2.feedback = "" ∧ rv2.stop = true := by
  refine ⟨rfl, rfl, rfl, ?_⟩
  obtain ⟨rv1, r1, hloop, q1, q2, _, q4⟩ :=
    r_call_loop_no_verdict env hvc hfc fuel rv.reset
      [Msg.user ("Code to be reviewed:\n ```python\n" ++ code ++ "\n```"),
       Msg.user ("The task the code should align with:\n " ++ rv.reset.task)]
      none
  obtain ⟨t, hcall⟩ := r_call_of_loop env fuel rv.reset _ rv1 r1 (by simp) hloop
  have hrev : CodeReviewer.review env fuel rv.reset code =
      .ok (rv1, rv1.pass_, rv1.feedback) := by
    unfold CodeReviewer.review
    rw [hcall]
  have hstop : rv1.stop = true :=
    q4 (by simp) rfl (by show rv.call_count ≤ rv.max_calls; omega)
      (by show rv.max_calls < fuel + rv.call_count; omega)
  have hp : rv1.pass_ = false := by
    rw [q1]
    rfl
  have hf : rv1.feedback = "" := by
    rw [q2]
    rfl
  refine ⟨rv1, ?_, hp, hf, hstop⟩
  unfold write_python
  rw [if_neg (Nat.not_lt.mpr hlint), hrev, hp]
  rfl

/-- Witness for reviewer_budget_exhaustion_default_verdict at a fresh
reviewer with budget 10 and fuel 11. -/
theorem reviewer_budget_exhaustion_default_verdict_witness :
    ("e".length ≤ 10) ∧
    (∀ j, ∀ it ∈ (w9_env j).output, is_verdict_call it = false) ∧
    (∀ j, ∃ it ∈ (w9_env j).output, is_fn_call it = true) ∧
    (mk_code_reviewer "task").call_count = 0 ∧
    (mk_code_reviewer "task").max_calls < 11 ∧
    ((mk_code_reviewer "task").reset.pass_ = false ∧
      (mk_code_reviewer "task").reset.feedback = "" ∧
      (mk_code_reviewer "task").reset.stop = false ∧
      ∃ rv2, write_python w9_env 11 (mk_code_reviewer "task") "f.py" "x" "e" =
          .ok (rv2, "f.py" ++
            " saved successfully. Code did not pass the review. Feedback: " ++
            rv2.feedback) ∧
        rv2.pass_ = false ∧ rv2.feedback = "" ∧ rv2.stop = true) :=
  ⟨by decide,
    fun j => by
      intro it hit
      simp only [w9_env, List.mem_singleton] at hit
      subst hit
      rfl,
    fun j => ⟨RItem.fn_call "run" true "" "c", by simp [w9_env], rfl⟩,
    rfl, by decide,
    reviewer_budget_exhaustion_default_verdict w9_env 11
      (mk_code_reviewer "task") "f.py" "x" "e" (by decide)
      (fun j => by
        intro it hit
        simp only [w9_env, List.mem_singleton] at hit
        subst hit
        rfl)
      (fun j => ⟨RItem.fn_call "run" true "" "c", by simp [w9_env], rfl⟩)
      rfl (by decide)⟩

/-! ### List-level lemmas for the TaskManager state machine -/

theorem modify_at_append (f : α → α) :
    ∀ (l1 : List α) (x : α) (l2 : List α),
      modify_at f l1.length (l1 ++ x :: l2) = l1 ++ f x :: l2 := by
  intro l1
  induction l1 with
  | nil =>
      intro x l2
      rfl
  | cons t ts ih =>
      intro x l2
      show t :: modify_at f ts.length (ts ++ x :: l2) = t :: (ts ++ f x :: l2)
      rw [ih]

theorem find_idx_split (tid : Int) :
    ∀ (l : List Task) (i : Nat), find_idx_by_id tid l = some i →
      ∃ l1 x l2, l = l1 ++ x :: l2 ∧ l1.length = i ∧ x.task_id = tid ∧
        ∀ u ∈ l1, u.task_id ≠ tid := by
  intro l
  induction l with
  | nil =>
      intro i h
      exact absurd h (by simp [find_idx_by_id])
  | cons t ts ih =>
      intro i h
      by_cases htid : t.task_id = tid
      · simp only [find_idx_by_id, if_pos htid] at h
        exact ⟨[], t, ts, rfl, by simpa using Option.some.inj h, htid, by simp⟩
      · simp only [find_idx_by_id, if_neg htid] at h
        rcases Option.map_eq_some'.mp h with ⟨j, hj, hji⟩
        obtain ⟨l1, x, l2, hsplit, hlen, hxid, hl1⟩ := ih j hj
        refine ⟨t :: l1, x, l2, by simp [hsplit], by simp [hlen, hji], hxid, ?_⟩
        intro u hu
        rcases List.mem_cons.mp hu with rfl | hu
        · exact htid
        · exact hl1 u hu

theorem find_idx_of_mem (t : Task) (tid : Int) :
    ∀ (l : List Task), t ∈ l → t.task_id = tid →
      ∃ i, find_idx_by_id tid l = some i := by
  intro l
  induction l with
  | nil =>
      intro ht
      cases ht
  | cons u us ih =>
      intro ht htid
      by_cases hu : u.task_id = tid
      · exact ⟨0, by simp [find_idx_by_id, hu]⟩
      · rcases List.mem_cons.mp ht with rfl | ht
        · exact absurd htid hu
        · obtain ⟨j, hj⟩ := ih ht htid
          exact ⟨j + 1, by simp [find_idx_by_id, hu, hj]⟩

theorem find_idx_congr (tid : Int) :
    ∀ (l l2 : List Task), l.map Task.task_id = l2.map Task.task_id →
      find_idx_by_id tid l = find_idx_by_id tid l2 := by
  intro l
  induction l with
  | nil =>
      intro l2 h
      cases l2 with
      | nil => rfl
      | cons u us => simp at h
  | cons t ts ih =>
      intro l2 h
      cases l2 with
      | nil => simp at h
      | cons u us =>
          simp only [List.map_cons, List.cons.injEq] at h
          obtain ⟨h1, h2⟩ := h
          simp only [find_idx_by_id, h1, ih us h2]

theorem ufi_split (f : Task → Task) :
    ∀ (l ts : List Task) (tid : Int), update_first_by_id f l tid = some ts →
      ∃ p x q, l = p ++ x :: q ∧ x.task_id = tid ∧
        (∀ u ∈ p, u.task_id ≠ tid) ∧ ts = p ++ f x :: q := by
  intro l
  induction l with
  | nil =>
      intro ts tid h
      exact absurd h (by simp [update_first_by_id])
  | cons t l ih =>
      intro ts tid h
      by_cases htid : t.task_id = tid
      · simp only [update_first_by_id, if_pos htid] at h
        exact ⟨[], t, l, rfl, htid, by simp, (Option.some.inj h).symm⟩
      · simp only [update_first_by_id, if_neg htid] at h
        cases hrec : update_first_by_id f l tid with
        | none =>
            rw [hrec] at h
            exact Option.noConfusion h
        | some ts1 =>
            rw [hrec] at h
            obtain ⟨p, x, q, hsplit, hxid, hp, hts1⟩ := ih ts1 tid hrec
            refine ⟨t :: p, x, q, by simp [hsplit], hxid, ?_, ?_⟩
            · intro u hu
              rcases List.mem_cons.mp hu with rfl | hu
              · exact htid
              · exact hp u hu
            · have hts : ts = t :: ts1 := (Option.some.inj h).symm
              rw [hts, hts1]
              rfl

theorem ufi_found (f : Task → Task) (tid : Int) :
    ∀ (p : List Task) (x : Task) (q : List Task), x.task_id = tid →
      (∀ u ∈ p, u.task_id ≠ tid) →
      update_first_by_id f (p ++ x :: q) tid = some (p ++ f x :: q) := by
  intro p
  induction p with
  | nil =>
      intro x q hx _
      simp [update_first_by_id, hx]
  | cons t p ih =>
      intro x q hx hp
      have ht : ¬ t.task_id = tid := hp t (by simp)
      simp only [List.cons_append, update_first_by_id, if_neg ht]
      rw [show update_first_by_id f (p.append (x :: q)) tid =
          some (p ++ f x :: q) from ih x q hx (fun u hu => hp u (by simp [hu]))]

theorem ufi_map_id (f : Task → Task) (hf : ∀ y, (f y).task_id = y.task_id)
    (l ts : List Task) (tid : Int) (h : update_first_by_id f l tid = some ts) :
    ts.map Task.task_id = l.map Task.task_id := by
  obtain ⟨p, x, q, hsplit, _, _, hts⟩ := ufi_split f l ts tid h
  subst hsplit
  subst hts
  simp [hf]

theorem deactivate_fst (m : TaskManager) (tid : Int) (c : String) :
    (m.deactivate_task tid c).1 =
      match update_first_by_id (Task.deactivate_task · c) m.tasks tid with
      | some ts => ⟨ts, -1⟩
      | none => m := by
  unfold TaskManager.deactivate_task
  cases update_first_by_id (Task.deactivate_task · c) m.tasks tid <;> rfl

theorem complete_fst (m : TaskManager) (tid : Int) (r : String) :
    (m.complete_task tid r).1 =
      match update_first_by_id (Task.complete_task · r) m.tasks tid with
      | some ts => ⟨ts, -1⟩
      | none => m := by
  unfold TaskManager.complete_task
  cases update_first_by_id (Task.complete_task · r) m.tasks tid <;> rfl

theorem deactivate_map_id (m : TaskManager) (tid : Int) (c : String) :
    ((m.deactivate_task tid c).1).tasks.map Task.task_id =
      m.tasks.map Task.task_id := by
  rw [deactivate_fst]
  cases hupd : update_first_by_id (Task.deactivate_task · c) m.tasks tid with
  | none => rfl
  | some ts =>
      exact ufi_map_id (Task.deactivate_task · c) (fun y => rfl) m.tasks ts tid hupd

/-! ### Preservation of the activation invariant -/

theorem strong_inv_add (m : TaskManager) (tid : Int) (nm ds : String)
    (h : StrongInv m) (hid : tid ≠ -1) :
    StrongInv (m.add_task (mk_task tid nm ds "")) := by
  obtain ⟨hids, hcase⟩ := h
  constructor
  · intro t ht
    rcases List.mem_append.mp ht with ht | ht
    · exact hids t ht
    · simp only [List.mem_singleton] at ht
      subst ht
      simpa [mk_task] using hid
  · rcases hcase with ⟨hptr, hall⟩ | ⟨hptr, p, x, q, hsplit, hx1, hx2, hp, hq⟩
    · left
      refine ⟨hptr, fun t ht => ?_⟩
      rcases List.mem_append.mp ht with ht | ht
      · exact hall t ht
      · simp only [List.mem_singleton] at ht
        subst ht
        simp [mk_task]
    · right
      refine ⟨hptr, p, x, q ++ [mk_task tid nm ds ""],
        by simp [TaskManager.add_task, hsplit], hx1, hx2, hp, ?_⟩
      intro u hu
      rcases List.mem_append.mp hu with hu | hu
      · exact hq u hu
      · simp only [List.mem_singleton] at hu
        subst hu
        simp [mk_task]

theorem strong_inv_clear (m : TaskManager) (tid : Int) (f : Task → Task)
    (hfid : ∀ y, (f y).task_id = y.task_id)
    (hfst : ∀ y, (f y).task_status ≠ 0)
    (h : StrongInv m) (hguard : m.active_task = -1 ∨ tid = m.active_task) :
    StrongInv (match update_first_by_id f m.tasks tid with
      | some ts => ⟨ts, -1⟩
      | none => m) := by
  obtain ⟨hids, hcase⟩ := h
  cases hupd : update_first_by_id f m.tasks tid with
  | none => exact ⟨hids, hcase⟩
  | some ts =>
      obtain ⟨p, x, q, hsplit, hxid, hpno, hts⟩ := ufi_split f m.tasks ts tid hupd
      subst hts
      have hmemp : ∀ u ∈ p, u ∈ m.tasks := fun u hu => by simp [hsplit, hu]
      have hmemq : ∀ u ∈ q, u ∈ m.tasks := fun u hu => by simp [hsplit, hu]
      have hmemx : x ∈ m.tasks := by simp [hsplit]
      constructor
      · intro t ht
        rcases List.mem_append.mp ht with ht | ht
        · exact hids t (hmemp t ht)
        · rcases List.mem_cons.mp ht with rfl | ht
          · rw [hfid x]
            exact hids x hmemx
          · exact hids t (hmemq t ht)
      · left
        refine ⟨rfl, fun t ht => ?_⟩
        rcases hcase with ⟨hptr, hall⟩ | ⟨hptr, p1, x1, q1, hsplit1, hx1id, hx1st, hp1, hq1⟩
        · rcases List.mem_append.mp ht with ht | ht
          · exact hall t (hmemp t ht)
          · rcases List.mem_cons.mp ht with rfl | ht
            · exact hfst x
            · exact hall t (hmemq t ht)
        · -- the pointer names an active task, and the guard forces tid to be it
          have htid : tid = m.active_task := by
            rcases hguard with hguard | hguard
            · exact absurd hguard hptr
            · exact hguard
          have hfound := ufi_found f tid p1 x1 q1 (htid ▸ hx1id)
            (fun u hu => htid ▸ (hp1 u hu).1)
          rw [hsplit1] at hupd
          rw [hfound] at hupd
          have heq : p ++ f x :: q = p1 ++ f x1 :: q1 := (Option.some.inj hupd).symm
          rw [heq] at ht
          rcases List.mem_append.mp ht with ht | ht
          · exact (hp1 t ht).2
          · rcases List.mem_cons.mp ht with rfl | ht
            · exact hfst x1
            · exact hq1 t ht

theorem strong_inv_deactivate (m : TaskManager) (tid : Int) (c : String)
    (h : StrongInv m) (hguard : m.active_task = -1 ∨ tid = m.active_task) :
    StrongInv ((m.deactivate_task tid c).1) := by
  rw [deactivate_fst]
  exact strong_inv_clear m tid (Task.deactivate_task · c) (fun y => rfl)
    (fun y => by simp [Task.deactivate_task]) h hguard

theorem strong_inv_complete (m : TaskManager) (tid : Int) (r : String)
    (h : StrongInv m) (hguard : m.active_task = -1 ∨ tid = m.active_task) :
    StrongInv ((m.complete_task tid r).1) := by
  rw [complete_fst]
  exact strong_inv_clear m tid (Task.complete_task · r) (fun y => rfl)
    (fun y => by simp [Task.complete_task]) h hguard

theorem strong_inv_activate_core (ts : List Task) (tid : Int) (i : Nat)
    (hfind : find_idx_by_id tid ts = some i)
    (hall : ∀ u ∈ ts, u.task_status ≠ 0)
    (hids : ∀ u ∈ ts, u.task_id ≠ -1) :
    StrongInv ⟨modify_at Task.activate_task i ts, tid⟩ := by
  obtain ⟨l1, x, l2, hsplit, hlen, hxid, hl1⟩ := find_idx_split tid ts i hfind
  subst hsplit
  rw [← hlen, modify_at_append]
  have htid : tid ≠ -1 := by
    rw [← hxid]
    exact hids x (by simp)
  constructor
  · intro t ht
    rcases List.mem_append.mp ht with ht | ht
    · exact hids t (by simp [ht])
    · rcases List.mem_cons.mp ht with rfl | ht
      · show x.task_id ≠ -1
        exact hids x (by simp)
      · exact hids t (by simp [ht])
  · right
    refine ⟨htid, l1, x.activate_task, l2, rfl, hxid, rfl, ?_, ?_⟩
    · intro u hu
      exact ⟨hl1 u hu, hall u (by simp [hu])⟩
    · intro u hu
      exact hall u (by simp [hu])

theorem strong_inv_activate (m : TaskManager) (tid : Int) (h : StrongInv m) :
    StrongInv ((m.activate_task tid).1) := by
  unfold TaskManager.activate_task
  cases hfind : find_idx_by_id tid m.tasks with
  | none => exact h
  | some i =>
      by_cases hptr : m.active_task = -1
      · rw [if_neg (by simp [hptr])]
        obtain ⟨hids, hcase⟩ := h
        rcases hcase with ⟨_, hall⟩ | ⟨hptr1, _⟩
        · exact strong_inv_activate_core m.tasks tid i hfind hall hids
        · exact absurd hptr hptr1
      · rw [if_pos hptr]
        obtain ⟨hids, hcase⟩ := h
        rcases hcase with ⟨hptr1, _⟩ | ⟨_, p, x, q, hsplit, hxid, hxst, hp, hq⟩
        · exact absurd hptr1 hptr
        · have hfound := ufi_found
            (Task.deactivate_task · "Deactivated due to new activation.")
            m.active_task p x q hxid (fun u hu => (hp u hu).1)
          have hfst : (m.deactivate_task m.active_task
              "Deactivated due to new activation.").1 =
              ⟨p ++ x.deactivate_task "Deactivated due to new activation." :: q,
                -1⟩ := by
            rw [deactivate_fst, hsplit, hfound]
          rw [hfst]
          have hmap : (p ++ x.deactivate_task
              "Deactivated due to new activation." :: q).map Task.task_id =
              m.tasks.map Task.task_id := by
            rw [hsplit]
            simp [Task.deactivate_task]
          have hfind1 : find_idx_by_id tid
              (p ++ x.deactivate_task "Deactivated due to new activation." :: q) =
              some i := by
            rw [find_idx_congr tid _ m.tasks hmap]
            exact hfind
          have hall1 : ∀ u ∈ p ++ x.deactivate_task
              "Deactivated due to new activation." :: q, u.task_status ≠ 0 := by
            intro u hu
            rcases List.mem_append.mp hu with hu | hu
            · exact (hp u hu).2
            · rcases List.mem_cons.mp hu with rfl | hu
              · simp [Task.deactivate_task]
              · exact hq u hu
          have hids1 : ∀ u ∈ p ++ x.deactivate_task
              "Deactivated due to new activation." :: q, u.task_id ≠ -1 := by
            intro u hu
            rcases List.mem_append.mp hu with hu | hu
            · exact hids u (by simp [hsplit, hu])
            · rcases List.mem_cons.mp hu with rfl | hu
              · show x.task_id ≠ -1
                exact hids x (by simp [hsplit])
              · exact hids u (by simp [hsplit, hu])
          exact strong_inv_activate_core _ tid i hfind1 hall1 hids1

theorem strong_inv_run_op (m : TaskManager) (op : TMOp)
    (h : StrongInv m) (hg : guarded_op m op = true) :
    StrongInv (run_op m op) := by
  cases op with
  | add tid nm ds =>
      exact strong_inv_add m tid nm ds h (by simpa [guarded_op] using hg)
  | activate tid =>
      exact strong_inv_activate m tid h
  | deactivate tid c =>
      refine strong_inv_deactivate m tid c h ?_
      simpa [guarded_op] using hg
  | complete tid r =>
      refine strong_inv_complete m tid r h ?_
      simpa [guarded_op] using hg

theorem strong_inv_run_ops :
    ∀ (ops : List TMOp) (m : TaskManager), StrongInv m →
      guarded_run m ops = true → StrongInv (run_ops m ops) := by
  intro ops
  induction ops with
  | nil =>
      intro m h _
      exact h
  | cons op ops ih =>
      intro m h hg
      rw [guarded_run, Bool.and_eq_true] at hg
      exact ih (run_op m op) (strong_inv_run_op m op h hg.1) hg.2

theorem guarded_run_append_left :
    ∀ (o1 o2 : List TMOp) (m : TaskManager),
      guarded_run m (o1 ++ o2) = true → guarded_run m o1 = true := by
  intro o1
  induction o1 with
  | nil =>
      intro o2 m _
      rfl
  | cons op ops ih =>
      intro o2 m h
      rw [List.cons_append, guarded_run, Bool.and_eq_true] at h
      rw [guarded_run, Bool.and_eq_true]
      exact ⟨h.1, ih o2 (run_op m op) h.2⟩

theorem strong_inv_conclusions (m : TaskManager) (h : StrongInv m) :
    at_most_one_active m ∧ pointer_consistent m := by
  obtain ⟨_, hcase⟩ := h
  rcases hcase with ⟨hptr, hall⟩ | ⟨hptr, p, x, q, hsplit, hxid, hxst, hp, hq⟩
  · constructor
    · show count_active m ≤ 1
      unfold count_active
      have hz : m.tasks.countP (fun t => t.task_status == 0) = 0 :=
        List.countP_eq_zero.mpr fun a ha => by simp [hall a ha]
      omega
    · exact Or.inl hptr
  · constructor
    · show count_active m ≤ 1
      unfold count_active
      rw [hsplit, List.countP_append, List.countP_cons]
      have h1 : p.countP (fun t => t.task_status == 0) = 0 :=
        List.countP_eq_zero.mpr fun a ha => by simp [(hp a ha).2]
      have h2 : q.countP (fun t => t.task_status == 0) = 0 :=
        List.countP_eq_zero.mpr fun a ha => by simp [hq a ha]
      simp [h1, h2, hxst]
    · exact Or.inr ⟨x, by simp [hsplit], hxst, hxid⟩

/-- C2 counterexample: a concrete sequence of TaskManager operations after
which two tasks have status active at once — deactivating the non-active
task 2 clears the pointer while task 1 stays active, so activating task 2
skips the automatic deactivation. -/
theorem tm_two_active_tasks_reachable :
    count_active (run_ops empty_manager two_active_ops) = 2 ∧
    ¬ at_most_one_active (run_ops empty_manager two_active_ops) := by
  constructor
  · decide
  · decide

/-- C2 (amended): for every sequence of add/activate/deactivate/complete
operations from the empty manager in which added tasks never use the
sentinel id and deactivate/complete are only aimed at the current active
pointer's task whenever the pointer is not the sentinel (the discipline the
task tools follow), at most one task is active at any time and the pointer
always equals the sentinel or the id of an active task.  Unrestricted
sequences violate this (see the counterexample). -/
theorem tm_single_active_invariant_guarded (ops : List TMOp)
    (h : guarded_run empty_manager ops = true) :
    ∀ pre suf, ops = pre ++ suf →
      at_most_one_active (run_ops empty_manager pre) ∧
      pointer_consistent (run_ops empty_manager pre) := by
  intro pre suf hsplit
  subst hsplit
  have hpre := guarded_run_append_left pre suf empty_manager h
  have hinv0 : StrongInv empty_manager :=
    ⟨by simp [empty_manager], Or.inl ⟨rfl, by simp [empty_manager]⟩⟩
  exact strong_inv_conclusions _ (strong_inv_run_ops pre empty_manager hinv0 hpre)

/-- Witness for tm_single_active_invariant_guarded on a concrete guarded
sequence exercising all four operations. -/
theorem tm_single_active_invariant_guarded_witness :
    guarded_run empty_manager w2_ops = true ∧
    ∀ pre suf, w2_ops = pre ++ suf →
      at_most_one_active (run_ops empty_manager pre) ∧
      pointer_consistent (run_ops empty_manager pre) :=
  ⟨by decide, tm_single_active_invariant_guarded w2_ops (by decide)⟩

/-- C10: activate_task checks no precondition on the target's status — for
any task present in the manager, including a completed one, it sets that
task's status to active and points the active pointer at its id. -/
theorem activate_task_ignores_completed_status (m : TaskManager) (tid : Int)
    (h : ∃ t ∈ m.tasks, t.task_id = tid) :
    (m.activate_task tid).1.active_task = tid ∧
    (m.activate_task tid).2 = "Task " ++ toString tid ++ " activated." ∧
    ∃ t ∈ (m.activate_task tid).1.tasks, t.task_id = tid ∧ t.task_status = 0 := by
  obtain ⟨t, ht, htid⟩ := h
  obtain ⟨i, hfind⟩ := find_idx_of_mem t tid m.tasks ht htid
  unfold TaskManager.activate_task
  rw [hfind]
  refine ⟨rfl, rfl, ?_⟩
  by_cases hptr : m.active_task = -1
  · rw [if_neg (by simp [hptr])]
    obtain ⟨l1, x, l2, hsplit, hlen, hxid, _⟩ := find_idx_split tid m.tasks i hfind
    show ∃ u ∈ modify_at Task.activate_task i m.tasks, u.task_id = tid ∧
      u.task_status = 0
    rw [hsplit, ← hlen, modify_at_append]
    exact ⟨x.activate_task, by simp, hxid, rfl⟩
  · rw [if_pos hptr]
    have hmap := deactivate_map_id m m.active_task
      "Deactivated due to new activation."
    have hfind1 : find_idx_by_id tid
        ((m.deactivate_task m.active_task
          "Deactivated due to new activation.").1).tasks = some i := by
      rw [find_idx_congr tid _ m.tasks hmap]
      exact hfind
    obtain ⟨l1, x, l2, hsplit, hlen, hxid, _⟩ :=
      find_idx_split tid _ i hfind1
    show ∃ u ∈ modify_at Task.activate_task i
        ((m.deactivate_task m.active_task
          "Deactivated due to new activation.").1).tasks,
      u.task_id = tid ∧ u.task_status = 0
    rw [hsplit, ← hlen, modify_at_append]
    exact ⟨x.activate_task, by simp, hxid, rfl⟩

/-- Witness for activate_task_ignores_completed_status at a manager holding
one completed task. -/
theorem activate_task_ignores_completed_status_witness :
    (∃ t ∈ w10_manager.tasks, t.task_id = 5) ∧
    ((w10_manager.activate_task 5).1.active_task = 5 ∧
      (w10_manager.activate_task 5).2 =
        "Task " ++ toString (5 : Int) ++ " activated." ∧
      ∃ t ∈ (w10_manager.activate_task 5).1.tasks,
        t.task_id = 5 ∧ t.task_status = 0) :=
  ⟨by decide, activate_task_ignores_completed_status w10_manager 5 (by decide)⟩

end AoD
